import Mathlib

/-!
Shallow embedding of the `noise` peer-to-peer networking library
(packages `pool` and `network`), together with theorems settling the
specification claims about it.

Conventions of the embedding:
* Go `time.Time` / `time.Duration` become `Nat` timestamps and durations;
  `time.Now()` becomes an explicit `now : Nat` argument threaded to every
  operation that reads the clock.
* A `sync.Map` becomes an association list; `Range` traverses it in list
  order (the Go iteration order is unspecified, and no claim depends on it).
* Opaque handles (`Poolable`, `*PeerClient`) become `Nat` identifiers;
  `Close()` invocations are recorded in an explicit log so that "closed
  exactly once" is a statement about the log.
* External library calls (URL parsing, DNS lookups, the KCP/smux transport,
  protobuf decoding, reflection type names, the random shuffle) are
  parameters of the functions that use them: the repository's control flow
  around them is embedded exactly.
-/

/-! ## `pool/pool.go` -/

/-- `pool.ObjectConfig`. -/
structure ObjectConfig where
  AliveFor : Nat
deriving DecidableEq, Repr

/-- `pool.Object`: expiration timestamp, the pooled handle (an abstract
identifier standing for the `Poolable`), and the config it was added with. -/
structure Object where
  expiresAt : Nat
  handle : Nat
  config : ObjectConfig
deriving DecidableEq, Repr

/-- `pool.Pool`: the `objects` sync.Map as an association list, plus the log
of `Close()` invocations performed by `Gc` (in invocation order). -/
structure Pool where
  objects : List (String × Object)
  closed : List Nat
deriving DecidableEq, Repr

/-- `pool.NewPool()`. -/
def NewPool : Pool := ⟨[], []⟩

/-- `sync.Map.Store`: overwrite the binding for `key` if present, else append. -/
def storeAssoc (key : String) (obj : Object) : List (String × Object) → List (String × Object)
  | [] => [(key, obj)]
  | (k, o) :: rest => if k = key then (key, obj) :: rest else (k, o) :: storeAssoc key obj rest

/-- `sync.Map.Load`: first binding for `key`, if any. -/
def loadAssoc (key : String) : List (String × Object) → Option Object
  | [] => none
  | (k, o) :: rest => if k = key then some o else loadAssoc key rest

/-- `sync.Map.Delete`: remove the binding(s) for `key`. -/
def deleteAssoc (key : String) : List (String × Object) → List (String × Object)
  | [] => []
  | (k, o) :: rest => if k = key then deleteAssoc key rest else (k, o) :: deleteAssoc key rest

/-- `Pool.Add`: unconditionally store a fresh object whose expiration is
`now + cfg.AliveFor`. No `Close` is ever invoked here. -/
def Pool.Add (p : Pool) (now : Nat) (key : String) (value : Nat) (cfg : ObjectConfig) : Pool :=
  { p with objects := storeAssoc key ⟨now + cfg.AliveFor, value, cfg⟩ p.objects }

/-- `Pool.getObject`. -/
def Pool.getObject (p : Pool) (key : String) : Option Object :=
  loadAssoc key p.objects

/-- `Pool.Get`: lookup without renewal. -/
def Pool.Get (p : Pool) (key : String) : Option Nat :=
  (p.getObject key).map Object.handle

/-- `Pool.GetAndRenew`: lookup and atomically swap the expiration to
`now + config.AliveFor` (the in-place pointer swap becomes rewriting the
binding). -/
def Pool.GetAndRenew (p : Pool) (now : Nat) (key : String) : Option Nat × Pool :=
  match loadAssoc key p.objects with
  | none => (none, p)
  | some obj =>
      (some obj.handle,
       { p with objects :=
          storeAssoc key { obj with expiresAt := now + obj.config.AliveFor } p.objects })

/-- `Pool.Remove`: delete the binding; the handle's `Close` is not invoked. -/
def Pool.Remove (p : Pool) (key : String) : Pool :=
  { p with objects := deleteAssoc key p.objects }

/-- Phase 2 of `Pool.Gc`: for each collected key still present, delete it and
invoke `Close` on its handle (recorded in the `closed` log). -/
def Pool.gcSweep (p : Pool) : List String → Pool
  | [] => p
  | k :: rest =>
      match p.Get k with
      | some h =>
          Pool.gcSweep { p with objects := deleteAssoc k p.objects, closed := p.closed ++ [h] } rest
      | none => Pool.gcSweep p rest

/-- `Pool.Gc`: phase 1 snapshots the keys whose `expiresAt` is strictly
before `now` (`obj.expiresAt.Before(curTime)`); phase 2 sweeps them. -/
def Pool.Gc (p : Pool) (now : Nat) : Pool :=
  let expired := (p.objects.filter (fun e => e.2.expiresAt < now)).map Prod.fst
  p.gcSweep expired

/-- Well-formedness: the sync.Map never holds two bindings for one key. -/
def Pool.WF (p : Pool) : Prop :=
  (p.objects.map Prod.fst).Nodup

/-! ### Association-list lemmas -/

theorem loadAssoc_storeAssoc_self (key : String) (obj : Object) (l : List (String × Object)) :
    loadAssoc key (storeAssoc key obj l) = some obj := by
  induction l with
  | nil => simp [storeAssoc, loadAssoc]
  | cons e rest ih =>
      by_cases h : e.1 = key
      · simp [storeAssoc, loadAssoc, h]
      · simp [storeAssoc, loadAssoc, h, ih]

theorem loadAssoc_storeAssoc_ne (k key : String) (obj : Object) (l : List (String × Object))
    (h : k ≠ key) : loadAssoc k (storeAssoc key obj l) = loadAssoc k l := by
  induction l with
  | nil => simp [storeAssoc, loadAssoc, Ne.symm h]
  | cons e rest ih =>
      by_cases he : e.1 = key
      · simp [storeAssoc, loadAssoc, he, h, Ne.symm h]
      · by_cases hk : e.1 = k
        · simp [storeAssoc, loadAssoc, he, hk, h, Ne.symm h]
        · simp [storeAssoc, loadAssoc, he, hk, ih, h]

theorem loadAssoc_deleteAssoc_self (key : String) (l : List (String × Object)) :
    loadAssoc key (deleteAssoc key l) = none := by
  induction l with
  | nil => simp [deleteAssoc, loadAssoc]
  | cons e rest ih =>
      by_cases h : e.1 = key
      · simp [deleteAssoc, h, ih]
      · simp [deleteAssoc, loadAssoc, h, ih]

theorem loadAssoc_deleteAssoc_ne (k key : String) (l : List (String × Object)) (h : k ≠ key) :
    loadAssoc k (deleteAssoc key l) = loadAssoc k l := by
  induction l with
  | nil => simp [deleteAssoc, loadAssoc]
  | cons e rest ih =>
      by_cases he : e.1 = key
      · subst he
        simp [deleteAssoc, loadAssoc, Ne.symm h, ih]
      · by_cases hk : e.1 = k
        · simp [deleteAssoc, loadAssoc, he, hk, h, Ne.symm h]
        · simp [deleteAssoc, loadAssoc, he, hk, ih, h]

theorem loadAssoc_eq_none_iff (key : String) (l : List (String × Object)) :
    loadAssoc key l = none ↔ key ∉ l.map Prod.fst := by
  induction l with
  | nil => simp [loadAssoc]
  | cons e rest ih =>
      by_cases h : e.1 = key
      · simp [loadAssoc, h]
      · simp [loadAssoc, h, ih, Ne.symm h]

theorem mem_of_loadAssoc_eq_some (key : String) (obj : Object) (l : List (String × Object))
    (h : loadAssoc key l = some obj) : (key, obj) ∈ l := by
  induction l with
  | nil => simp [loadAssoc] at h
  | cons e rest ih =>
      obtain ⟨k1, o1⟩ := e
      by_cases he : k1 = key
      · subst he
        simp only [loadAssoc, if_pos] at h
        cases h
        exact List.mem_cons_self _ _
      · simp only [loadAssoc, he, if_neg, not_false_iff] at h
        exact List.mem_cons_of_mem _ (ih h)

theorem loadAssoc_eq_some_of_mem (key : String) (obj : Object) (l : List (String × Object))
    (hnd : (l.map Prod.fst).Nodup) (h : (key, obj) ∈ l) : loadAssoc key l = some obj := by
  induction l with
  | nil => simp at h
  | cons e rest ih =>
      obtain ⟨k1, o1⟩ := e
      rcases List.mem_cons.mp h with h1 | h1
      · cases h1
        simp [loadAssoc]
      · have hk : key ∈ rest.map Prod.fst := List.mem_map.mpr ⟨(key, obj), h1, rfl⟩
        have he : k1 ≠ key := by
          intro hkk
          subst hkk
          exact (List.nodup_cons.mp (by simpa using hnd)).1 hk
        simp only [loadAssoc, he, if_neg, not_false_iff]
        exact ih (List.Nodup.of_cons hnd) h1

theorem mem_storeAssoc (key k : String) (obj o : Object) (l : List (String × Object))
    (h : (k, o) ∈ storeAssoc key obj l) : (k, o) = (key, obj) ∨ (k, o) ∈ l := by
  induction l with
  | nil => simpa [storeAssoc] using h
  | cons e rest ih =>
      by_cases he : e.1 = key
      · simp only [storeAssoc, he, if_pos] at h
        rcases List.mem_cons.mp h with h1 | h1
        · exact Or.inl h1
        · exact Or.inr (List.mem_cons_of_mem _ h1)
      · simp only [storeAssoc, he, if_neg, not_false_iff] at h
        rcases List.mem_cons.mp h with h1 | h1
        · exact Or.inr (h1 ▸ List.mem_cons_self _ _)
        · rcases ih h1 with h2 | h2
          · exact Or.inl h2
          · exact Or.inr (List.mem_cons_of_mem _ h2)

theorem map_fst_storeAssoc (key : String) (obj : Object) (l : List (String × Object)) :
    (storeAssoc key obj l).map Prod.fst =
      if key ∈ l.map Prod.fst then l.map Prod.fst else l.map Prod.fst ++ [key] := by
  induction l with
  | nil => simp [storeAssoc]
  | cons e rest ih =>
      by_cases he : e.1 = key
      · simp [storeAssoc, he]
      · by_cases hmem : key ∈ rest.map Prod.fst
        · simp [storeAssoc, he, hmem, ih, Ne.symm he]
        · simp [storeAssoc, he, hmem, ih, Ne.symm he]

theorem wf_storeAssoc (key : String) (obj : Object) (l : List (String × Object))
    (h : (l.map Prod.fst).Nodup) : ((storeAssoc key obj l).map Prod.fst).Nodup := by
  rw [map_fst_storeAssoc]
  by_cases hmem : key ∈ l.map Prod.fst
  · simpa [hmem] using h
  · rw [if_neg hmem]
    refine List.Nodup.append h (List.nodup_singleton key) ?_
    intro a ha hb
    simp only [List.mem_singleton] at hb
    subst hb
    exact hmem ha

theorem deleteAssoc_sublist (key : String) (l : List (String × Object)) :
    (deleteAssoc key l).Sublist l := by
  induction l with
  | nil => simp [deleteAssoc]
  | cons e rest ih =>
      by_cases h : e.1 = key
      · simp only [deleteAssoc, h, if_pos]
        exact ih.trans (List.sublist_cons_self _ _)
      · simp only [deleteAssoc, h, if_neg, not_false_iff]
        exact ih.cons₂ e

/-! ### `Gc` sweep lemmas -/

theorem gcSweep_preserves_load_none (L : List String) :
    ∀ (p : Pool) (k : String), loadAssoc k p.objects = none →
      loadAssoc k (p.gcSweep L).objects = none := by
  induction L with
  | nil => intro p k h; simpa [Pool.gcSweep] using h
  | cons k0 rest ih =>
      intro p k h
      simp only [Pool.gcSweep]
      cases hget : p.Get k0 with
      | none => exact ih p k h
      | some hdl =>
          apply ih
          by_cases hk : k = k0
          · subst hk
            exact loadAssoc_deleteAssoc_self k _
          · rw [loadAssoc_deleteAssoc_ne k k0 _ hk]
            exact h

theorem gcSweep_load_none_of_mem (L : List String) :
    ∀ (p : Pool) (k : String), k ∈ L → loadAssoc k (p.gcSweep L).objects = none := by
  induction L with
  | nil => intro p k h; simp at h
  | cons k0 rest ih =>
      intro p k h
      simp only [Pool.gcSweep]
      cases hget : p.Get k0 with
      | none =>
          rcases List.mem_cons.mp h with h1 | h1
          · subst h1
            apply gcSweep_preserves_load_none
            simpa [Pool.Get, Pool.getObject] using hget
          · exact ih p k h1
      | some hdl =>
          rcases List.mem_cons.mp h with h1 | h1
          · subst h1
            apply gcSweep_preserves_load_none
            exact loadAssoc_deleteAssoc_self k _
          · exact ih _ k h1

theorem gcSweep_objects_sublist (L : List String) :
    ∀ (p : Pool), (p.gcSweep L).objects.Sublist p.objects := by
  induction L with
  | nil => intro p; simp [Pool.gcSweep]
  | cons k0 rest ih =>
      intro p
      simp only [Pool.gcSweep]
      cases hget : p.Get k0 with
      | none => exact ih p
      | some hdl => exact (ih _).trans (deleteAssoc_sublist k0 p.objects)

theorem gcSweep_closed (L : List String) :
    ∀ (p : Pool), L.Nodup →
      (p.gcSweep L).closed =
        p.closed ++ L.filterMap (fun k => (loadAssoc k p.objects).map Object.handle) := by
  induction L with
  | nil => intro p _; simp [Pool.gcSweep]
  | cons k0 rest ih =>
      intro p hnd
      have hnd0 : k0 ∉ rest := (List.nodup_cons.mp hnd).1
      have hndr : rest.Nodup := (List.nodup_cons.mp hnd).2
      simp only [Pool.gcSweep]
      cases hget : p.Get k0 with
      | none =>
          have hload : loadAssoc k0 p.objects = none := by
            simpa [Pool.Get, Pool.getObject] using hget
          rw [ih p hndr]
          simp [List.filterMap_cons, hload]
      | some hdl =>
          have hload : ∃ obj, loadAssoc k0 p.objects = some obj ∧ obj.handle = hdl := by
            simp only [Pool.Get, Pool.getObject] at hget
            cases hl : loadAssoc k0 p.objects with
            | none => rw [hl] at hget; simp at hget
            | some obj => rw [hl] at hget; exact ⟨obj, rfl, by simpa using hget⟩
          obtain ⟨obj, hl, hh⟩ := hload
          rw [ih _ hndr]
          have hcong : rest.filterMap
              (fun k => (loadAssoc k (deleteAssoc k0 p.objects)).map Object.handle) =
              rest.filterMap (fun k => (loadAssoc k p.objects).map Object.handle) := by
            apply List.filterMap_congr
            intro k hk
            have hne : k ≠ k0 := fun he => hnd0 (he ▸ hk)
            rw [loadAssoc_deleteAssoc_ne k k0 _ hne]
          simp only [hcong]
          simp [List.filterMap_cons, hl, hh]

theorem gcSweep_load_of_not_mem (L : List String) :
    ∀ (p : Pool) (k : String), k ∉ L →
      loadAssoc k (p.gcSweep L).objects = loadAssoc k p.objects := by
  induction L with
  | nil => intro p k _; simp [Pool.gcSweep]
  | cons k0 rest ih =>
      intro p k h
      have hne : k ≠ k0 := fun he => h (he ▸ List.mem_cons_self k0 rest)
      have hr : k ∉ rest := fun hm => h (List.mem_cons_of_mem _ hm)
      simp only [Pool.gcSweep]
      cases hget : p.Get k0 with
      | none => exact ih p k hr
      | some hdl =>
          rw [ih _ k hr]
          exact loadAssoc_deleteAssoc_ne k k0 _ hne

/-- Counting helper: a `filterMap` over a duplicate-free key list yields `h`
exactly once when exactly one key maps to `h`. -/
theorem filterMap_count_one (f : String → Option Nat) (h : Nat) (k : String) :
    ∀ (L : List String), L.Nodup → k ∈ L → f k = some h →
      (∀ k' ∈ L, k' ≠ k → ∀ v, f k' = some v → v ≠ h) →
      (L.filterMap f).count h = 1 := by
  intro L
  induction L with
  | nil => intro _ hk; simp at hk
  | cons k0 rest ih =>
      intro hnd hk hfk hothers
      have hnd0 : k0 ∉ rest := (List.nodup_cons.mp hnd).1
      have hndr : rest.Nodup := (List.nodup_cons.mp hnd).2
      rcases List.mem_cons.mp hk with h1 | h1
      · subst h1
        rw [List.filterMap_cons_some hfk]
        have hzero : h ∉ rest.filterMap f := by
          intro hmem
          obtain ⟨k', hk', hfk'⟩ := List.mem_filterMap.mp hmem
          have hne : k' ≠ k := fun he => hnd0 (he ▸ hk')
          exact hothers k' (List.mem_cons_of_mem _ hk') hne h hfk' rfl
        rw [List.count_cons_self, List.count_eq_zero.mpr hzero]
      · have hne0 : k0 ≠ k := fun he => hnd0 (he ▸ h1)
        have ihr := ih hndr h1 hfk (fun k' hk' => hothers k' (List.mem_cons_of_mem _ hk'))
        cases hf0 : f k0 with
        | none => rw [List.filterMap_cons_none hf0]; exact ihr
        | some v =>
            have hvh : v ≠ h := hothers k0 (List.mem_cons_self _ _) hne0 v hf0
            rw [List.filterMap_cons_some hf0, List.count_cons_of_ne (Ne.symm hvh), ihr]

/-- C9: `Gc` is idempotent at a fixed clock reading: a second `Gc` at the
same `now` changes nothing and closes no handles. -/
theorem C9_gc_idempotent (p : Pool) (now : Nat) :
    (p.Gc now).Gc now = p.Gc now := by
  simp only [Pool.Gc]
  set q := p.gcSweep ((p.objects.filter (fun e => e.2.expiresAt < now)).map Prod.fst) with hq
  have hfil : q.objects.filter (fun e => e.2.expiresAt < now) = [] := by
    rw [List.filter_eq_nil_iff]
    rintro ⟨k, obj⟩ hmem
    simp only [decide_eq_true_eq]
    intro hlt
    have hp : (k, obj) ∈ p.objects := (gcSweep_objects_sublist _ p).subset hmem
    have hE : k ∈ (p.objects.filter (fun e => e.2.expiresAt < now)).map Prod.fst := by
      refine List.mem_map.mpr ⟨(k, obj), ?_, rfl⟩
      exact List.mem_filter.mpr ⟨hp, by simpa using hlt⟩
    have hnone : loadAssoc k q.objects = none := by
      rw [hq]
      exact gcSweep_load_none_of_mem _ p k hE
    have : k ∉ q.objects.map Prod.fst := (loadAssoc_eq_none_iff k q.objects).mp hnone
    exact this (List.mem_map.mpr ⟨(k, obj), hmem, rfl⟩)
  rw [hfil]
  simp [Pool.gcSweep]

/-- C8: handles are never closed by replacement or removal: `Add` over an
existing entry replaces it without closing it, `Remove` deletes without
closing, and `GetAndRenew` closes nothing either; only `Gc` appends to the
close log. -/
theorem C8_no_close_on_replace_or_remove (p : Pool) (now : Nat) (k : String)
    (h1 h2 : Nat) (cfg : ObjectConfig) (_hexist : p.Get k = some h1) :
    ((p.Add now k h2 cfg).Get k = some h2 ∧ (p.Add now k h2 cfg).closed = p.closed) ∧
    ((p.Remove k).Get k = none ∧ (p.Remove k).closed = p.closed) ∧
    (p.GetAndRenew now k).2.closed = p.closed := by
  refine ⟨⟨?_, rfl⟩, ⟨?_, rfl⟩, ?_⟩
  · simp [Pool.Get, Pool.getObject, Pool.Add, loadAssoc_storeAssoc_self]
  · simp [Pool.Get, Pool.getObject, Pool.Remove, loadAssoc_deleteAssoc_self]
  · simp only [Pool.GetAndRenew]
    cases hl : loadAssoc k p.objects <;> simp

/-- Witness for C8 at a concrete pool. -/
theorem C8_witness :
    (NewPool.Add 0 "k" 1 ⟨5⟩).Get "k" = some 1 ∧
    ((((NewPool.Add 0 "k" 1 ⟨5⟩).Add 3 "k" 2 ⟨5⟩).Get "k" = some 2 ∧
      ((NewPool.Add 0 "k" 1 ⟨5⟩).Add 3 "k" 2 ⟨5⟩).closed = (NewPool.Add 0 "k" 1 ⟨5⟩).closed) ∧
     (((NewPool.Add 0 "k" 1 ⟨5⟩).Remove "k").Get "k" = none ∧
      ((NewPool.Add 0 "k" 1 ⟨5⟩).Remove "k").closed = (NewPool.Add 0 "k" 1 ⟨5⟩).closed) ∧
     ((NewPool.Add 0 "k" 1 ⟨5⟩).GetAndRenew 3 "k").2.closed = (NewPool.Add 0 "k" 1 ⟨5⟩).closed) :=
  ⟨by decide, C8_no_close_on_replace_or_remove (NewPool.Add 0 "k" 1 ⟨5⟩) 3 "k" 1 2 ⟨5⟩ (by decide)⟩

/-- C2 counterexample: `add("foo", 7, {aliveFor=5})` at `t = 0` gives
`expiresAt = 5`; a `gc` at `now = 5` (so `now ≥ expiresAt`) does NOT evict:
`get("foo")` is still found and no `Close` has run, because the sweep only
collects entries with `expiresAt` strictly before `now`. -/
theorem C2_counterexample :
    (NewPool.Add 0 "foo" 7 ⟨5⟩).getObject "foo" = some ⟨5, 7, ⟨5⟩⟩ ∧
    ((NewPool.Add 0 "foo" 7 ⟨5⟩).Gc 5).Get "foo" = some 7 ∧
    ((NewPool.Add 0 "foo" 7 ⟨5⟩).Gc 5).closed = [] := by
  decide

/-- C2 (amended): `get` right after `add` finds the handle, and a `gc` run
at any `now` strictly past the expiration evicts the entry and closes its
handle exactly once (handle freshness among the other entries assumed). -/
theorem C2_ttl_eviction (p : Pool) (t now : Nat) (k : String) (h : Nat) (cfg : ObjectConfig)
    (hwf : p.WF)
    (hfresh : ∀ e ∈ p.objects, e.1 ≠ k → e.2.handle ≠ h)
    (hexp : t + cfg.AliveFor < now) :
    (p.Add t k h cfg).Get k = some h ∧
    ((p.Add t k h cfg).Gc now).Get k = none ∧
    ((p.Add t k h cfg).Gc now).closed.count h = p.closed.count h + 1 := by
  set obj0 : Object := ⟨t + cfg.AliveFor, h, cfg⟩ with hobj0
  set q : Pool := p.Add t k h cfg with hqdef
  have hload : loadAssoc k q.objects = some obj0 := loadAssoc_storeAssoc_self k obj0 p.objects
  have hqwf : (q.objects.map Prod.fst).Nodup := wf_storeAssoc k obj0 p.objects hwf
  have hmemq : (k, obj0) ∈ q.objects := mem_of_loadAssoc_eq_some k obj0 q.objects hload
  set E := (q.objects.filter (fun e => e.2.expiresAt < now)).map Prod.fst with hE
  have hkE : k ∈ E := by
    refine List.mem_map.mpr ⟨(k, obj0), ?_, rfl⟩
    exact List.mem_filter.mpr ⟨hmemq, by simpa [hobj0] using hexp⟩
  have hEnd : E.Nodup := by
    have hsub : E.Sublist (q.objects.map Prod.fst) :=
      (List.filter_sublist q.objects).map Prod.fst
    exact hqwf.sublist hsub
  refine ⟨by simp [Pool.Get, Pool.getObject, hload, hobj0], ?_, ?_⟩
  · have : loadAssoc k (q.gcSweep E).objects = none := gcSweep_load_none_of_mem E q k hkE
    simp [Pool.Gc, ← hE, Pool.Get, Pool.getObject, this]
  · have hclosed : (q.gcSweep E).closed =
        q.closed ++ E.filterMap (fun k' => (loadAssoc k' q.objects).map Object.handle) :=
      gcSweep_closed E q hEnd
    have hcount : (E.filterMap (fun k' => (loadAssoc k' q.objects).map Object.handle)).count h
        = 1 := by
      refine filterMap_count_one _ h k E hEnd hkE (by simp [hload, hobj0]) ?_
      intro k' hk' hne v hv
      cases hl : loadAssoc k' q.objects with
      | none => rw [hl] at hv; simp at hv
      | some obj' =>
          rw [hl] at hv
          have hv' : obj'.handle = v := by simpa using hv
          have hmem' : (k', obj') ∈ q.objects := mem_of_loadAssoc_eq_some k' obj' q.objects hl
          rcases mem_storeAssoc k k' obj0 obj' p.objects hmem' with heq | hmemp
          · exact absurd (congrArg Prod.fst heq) (by simpa using hne)
          · exact hv' ▸ hfresh (k', obj') hmemp hne
    have hqclosed : q.closed = p.closed := rfl
    rw [Pool.Gc]
    simp only [← hE]
    rw [hclosed, List.count_append, hqclosed, hcount]

/-- Witness for C2 (amended) at a concrete pool. -/
theorem C2_witness :
    NewPool.WF ∧
    (NewPool.Add 0 "foo" 7 ⟨5⟩).Get "foo" = some 7 ∧
    ((NewPool.Add 0 "foo" 7 ⟨5⟩).Gc 6).Get "foo" = none ∧
    ((NewPool.Add 0 "foo" 7 ⟨5⟩).Gc 6).closed.count 7 = NewPool.closed.count 7 + 1 := by
  refine ⟨by simp [Pool.WF, NewPool], ?_⟩
  exact C2_ttl_eviction NewPool 0 6 "foo" 7 ⟨5⟩ (by simp [Pool.WF, NewPool])
    (by intro e he; simp [NewPool] at he) (by decide)

/-! ## `network/address.go` and the resolver (`ToUnifiedHost`, `ToUnifiedAddress`,
`FilterPeers`) -/

/-- `network.AddressInfo`. -/
structure AddressInfo where
  Protocol : String
  Host : String
  Port : Nat
deriving DecidableEq, Repr

/-- `net.JoinHostPort` (external library): bracket the host when it contains
a colon, as in literal IPv6 addresses. The character search runs over the
underlying character list. -/
def joinHostPort (host : String) (port : Nat) : String :=
  if host.data.contains ':' then "[" ++ host ++ "]:" ++ toString port
  else host ++ ":" ++ toString port

/-- `strings.TrimSpace` (external library): drop whitespace from both ends. -/
def trimSpace (s : String) : String :=
  ⟨((s.data.dropWhile Char.isWhitespace).reverse.dropWhile Char.isWhitespace).reverse⟩

/-- `AddressInfo.String`: URL form when a scheme is present, else `host:port`. -/
def AddressInfo.String (info : AddressInfo) : String :=
  let address := joinHostPort info.Host info.Port
  if 0 < info.Protocol.length then info.Protocol ++ "://" ++ address else address

/-- External environment of the resolver and dialer: `url.Parse` +
`net.SplitHostPort` + `strconv.ParseUint` (together `ParseAddress`'s
library work), `net.ParseIP`, `net.LookupHost` (errors and empty results
both modelled as `[]`; the LRU memoization of a pure lookup is invisible),
and the transport dial outcome used by the spec-modelled `PeerClient.Dial`. -/
structure NetEnv where
  parseAddress : String → Option AddressInfo
  isIPLiteral : String → Bool
  lookupHost : String → List String
  connectOk : String → Bool

/-- `network.ToUnifiedHost`: IP literals pass through; otherwise the first
resolved address is used, with `::1` rewritten to `127.0.0.1`; empty
resolution is an error (`none`). -/
def ToUnifiedHost (env : NetEnv) (host : String) : Option String :=
  if env.isIPLiteral host then some host
  else
    match env.lookupHost host with
    | [] => none
    | a :: _ => some (if a = "::1" then "127.0.0.1" else a)

/-- `network.ToUnifiedAddress`: trim, reject empty, parse, unify the host,
and print the canonical form. -/
def ToUnifiedAddress (env : NetEnv) (address : String) : Option String :=
  let address := trimSpace address
  if address.length = 0 then none
  else
    match env.parseAddress address with
    | none => none
    | some info =>
        match ToUnifiedHost env info.Host with
        | none => none
        | some h => some (AddressInfo.String { info with Host := h })

/-- The loop body of `network.FilterPeers`: skip empty entries, skip entries
that fail to resolve, skip entries whose resolved form was already visited;
otherwise emit the resolved form and mark it visited. -/
def filterPeersLoop (env : NetEnv) (visited : List String) : List String → List String
  | [] => []
  | peerAddress :: rest =>
      if peerAddress.length = 0 then filterPeersLoop env visited rest
      else
        match ToUnifiedAddress env peerAddress with
        | none => filterPeersLoop env visited rest
        | some resolved =>
            if resolved ∈ visited then filterPeersLoop env visited rest
            else resolved :: filterPeersLoop env (resolved :: visited) rest

/-- `network.FilterPeers`: the `visited` set starts holding the node's own
address. -/
def FilterPeers (env : NetEnv) (address : String) (peers : List String) : List String :=
  filterPeersLoop env [address] peers

/-! ### `FilterPeers` lemmas -/

theorem joinHostPort_length_pos (host : String) (port : Nat) :
    0 < (joinHostPort host port).length := by
  have h1 : ("[" : String).length = 1 := rfl
  have h2 : ("]:" : String).length = 2 := rfl
  have h3 : (":" : String).length = 1 := rfl
  unfold joinHostPort
  by_cases h : host.data.contains ':'
  · rw [if_pos h, String.length_append, String.length_append, String.length_append, h1, h2]
    omega
  · rw [if_neg h, String.length_append, String.length_append, h3]
    omega

theorem addressInfoString_ne_empty (info : AddressInfo) : info.String ≠ "" := by
  intro hc
  have hlen : (AddressInfo.String info).length = 0 := by rw [hc]; rfl
  unfold AddressInfo.String at hlen
  by_cases h : 0 < info.Protocol.length
  · simp only [h, if_pos, String.length_append] at hlen
    have := joinHostPort_length_pos info.Host info.Port
    omega
  · simp only [h, if_neg, not_false_iff] at hlen
    have := joinHostPort_length_pos info.Host info.Port
    omega

theorem toUnifiedAddress_ne_empty (env : NetEnv) (address resolved : String)
    (h : ToUnifiedAddress env address = some resolved) : resolved ≠ "" := by
  unfold ToUnifiedAddress at h
  dsimp only at h
  split at h
  · simp at h
  · split at h
    · simp at h
    · split at h
      · simp at h
      · rw [Option.some_inj] at h
        exact h ▸ addressInfoString_ne_empty _

theorem filterPeersLoop_not_mem_visited (env : NetEnv) (v : String) :
    ∀ (peers : List String) (visited : List String), v ∈ visited →
      v ∉ filterPeersLoop env visited peers := by
  intro peers
  induction peers with
  | nil => intro visited _; simp [filterPeersLoop]
  | cons p rest ih =>
      intro visited hv
      simp only [filterPeersLoop]
      by_cases hp : p.length = 0
      · simpa [hp] using ih visited hv
      · simp only [hp, if_neg, not_false_iff]
        cases hr : ToUnifiedAddress env p with
        | none => exact ih visited hv
        | some resolved =>
            by_cases hmem : resolved ∈ visited
            · simpa [hmem] using ih visited hv
            · simp only [hmem, if_neg, not_false_iff]
              intro hcontra
              rcases List.mem_cons.mp hcontra with h1 | h1
              · exact hmem (h1 ▸ hv)
              · exact ih (resolved :: visited) (List.mem_cons_of_mem _ hv) h1

theorem filterPeersLoop_nodup (env : NetEnv) :
    ∀ (peers : List String) (visited : List String),
      (filterPeersLoop env visited peers).Nodup := by
  intro peers
  induction peers with
  | nil => intro visited; simp [filterPeersLoop]
  | cons p rest ih =>
      intro visited
      simp only [filterPeersLoop]
      by_cases hp : p.length = 0
      · simpa [hp] using ih visited
      · simp only [hp, if_neg, not_false_iff]
        cases hr : ToUnifiedAddress env p with
        | none => exact ih visited
        | some resolved =>
            by_cases hmem : resolved ∈ visited
            · simpa [hmem] using ih visited
            · simp only [hmem, if_neg, not_false_iff, List.nodup_cons]
              exact ⟨filterPeersLoop_not_mem_visited env resolved rest (resolved :: visited)
                (List.mem_cons_self _ _), ih (resolved :: visited)⟩

/-- The per-entry resolution used to state order preservation: empty inputs
resolve to nothing, everything else through `ToUnifiedAddress`. -/
def resolveEntry (env : NetEnv) (x : String) : Option String :=
  if x.length = 0 then none else ToUnifiedAddress env x

theorem filterPeersLoop_sublist (env : NetEnv) :
    ∀ (peers : List String) (visited : List String),
      (filterPeersLoop env visited peers).Sublist (peers.filterMap (resolveEntry env)) := by
  intro peers
  induction peers with
  | nil => intro visited; simp [filterPeersLoop]
  | cons p rest ih =>
      intro visited
      simp only [filterPeersLoop]
      by_cases hp : p.length = 0
      · simpa [hp, List.filterMap_cons, resolveEntry] using ih visited
      · cases hr : ToUnifiedAddress env p with
        | none =>
            simpa [hp, List.filterMap_cons, resolveEntry, hr] using ih visited
        | some resolved =>
            have hfm : (p :: rest).filterMap (resolveEntry env) =
                resolved :: rest.filterMap (resolveEntry env) := by
              simp [List.filterMap_cons, resolveEntry, hp, hr]
            rw [hfm]
            by_cases hmem : resolved ∈ visited
            · simp only [hp, if_neg, not_false_iff, hr, hmem, if_pos]
              exact (ih visited).trans (List.sublist_cons_self _ _)
            · simp only [hp, if_neg, not_false_iff, hr, hmem]
              exact (ih (resolved :: visited)).cons₂ resolved

theorem mem_filterPeersLoop_resolved (env : NetEnv) (peers visited : List String)
    (a : String) (h : a ∈ filterPeersLoop env visited peers) :
    ∃ x ∈ peers, resolveEntry env x = some a := by
  have hsub := filterPeersLoop_sublist env peers visited
  exact List.mem_filterMap.mp (hsub.subset h)

/-- C5: `FilterPeers(self, xs)` contains no empty entry, never the node's own
address, no duplicates among the resolved entries, and is an
order-preserving subsequence of the resolved forms of the inputs. -/
theorem C5_filterPeers_spec (env : NetEnv) (self : String) (xs : List String) :
    "" ∉ FilterPeers env self xs ∧
    self ∉ FilterPeers env self xs ∧
    (FilterPeers env self xs).Nodup ∧
    (FilterPeers env self xs).Sublist (xs.filterMap (resolveEntry env)) := by
  refine ⟨?_, ?_, ?_, ?_⟩
  · intro hmem
    obtain ⟨x, _, hres⟩ := mem_filterPeersLoop_resolved env xs [self] "" hmem
    unfold resolveEntry at hres
    by_cases hx : x.length = 0
    · simp [hx] at hres
    · simp only [hx, if_neg, not_false_iff] at hres
      exact toUnifiedAddress_ne_empty env x "" hres rfl
  · exact filterPeersLoop_not_mem_visited env self xs [self] (List.mem_cons_self _ _)
  · exact filterPeersLoop_nodup env xs [self]
  · exact filterPeersLoop_sublist env xs [self]

/-! ## `network/network.go`: `Network.Dial` -/

/-- The `Network` state relevant to dialing: bind host/port and the
`Peers` map (canonical address → abstract `*PeerClient` identifier),
plus a counter allocating fresh client identifiers for `createPeerClient`. -/
structure Network where
  Host : String
  Port : Nat
  Peers : List (String × Nat)
  nextClient : Nat
deriving DecidableEq, Repr

/-- `Network.Address()`: plain `Host + ":" + strconv.Itoa(int(Port))`
(note: no scheme and no IPv6 bracketing). -/
def Network.Address (n : Network) : String :=
  n.Host ++ ":" ++ toString n.Port

/-- `Peers.Load`. -/
def peersLoad (address : String) : List (String × Nat) → Option Nat
  | [] => none
  | (k, c) :: rest => if k = address then some c else peersLoad address rest

/-- The error kinds `Network.Dial` surfaces. -/
inductive DialError
  | EmptyAddress
  | ResolveFailed
  | SelfDial
  | ConnectFailed
deriving DecidableEq, Repr

/-- Modelled from the spec: `PeerClient.Dial` is code of this repository not
present under `src/` (only its caller `Network.Dial` is). Per the spec's
`dial` step 3, it establishes the underlying connection, wraps it in a mux
session and inserts the client into `peers`; the transport outcome is
`env.connectOk`. -/
def clientDial (env : NetEnv) (n : Network) (client : Nat) (address : String) :
    Option Network :=
  if env.connectOk address then some { n with Peers := n.Peers ++ [(address, client)] }
  else none

/-- `Network.Dial`: trim; reject empty; canonicalize; reject self-dial;
return a cached peer client if one exists; otherwise create a fresh client
and dial it. The returned `Network` is the (possibly updated) state. -/
def Network.Dial (env : NetEnv) (n : Network) (address0 : String) :
    Except DialError Nat × Network :=
  let address := trimSpace address0
  if address.length = 0 then (Except.error DialError.EmptyAddress, n)
  else
    match ToUnifiedAddress env address with
    | none => (Except.error DialError.ResolveFailed, n)
    | some address =>
        if address = n.Address then (Except.error DialError.SelfDial, n)
        else
          match peersLoad address n.Peers with
          | some client => (Except.ok client, n)
          | none =>
              let client := n.nextClient
              match clientDial env { n with nextClient := n.nextClient + 1 } client address with
              | some n2 => (Except.ok client, n2)
              | none => (Except.error DialError.ConnectFailed, n)

/-- C3: whenever the canonical form of the dialed string equals the node's
own address, `Dial` fails with `SelfDial` and the network state — in
particular the `peers` map — is unchanged: no client is created or
inserted. -/
theorem C3_self_dial (env : NetEnv) (n : Network) (address : String)
    (h : ToUnifiedAddress env (trimSpace address) = some n.Address) :
    Network.Dial env n address = (Except.error DialError.SelfDial, n) := by
  have hne : ¬(trimSpace address).length = 0 := by
    intro h0
    have he : trimSpace address = "" := by
      cases hs : trimSpace address with
      | mk data =>
          rw [hs] at h0
          simp [String.length] at h0
          simp [h0]
    have htrim : (trimSpace ("" : String)).length = 0 := rfl
    rw [he] at h
    unfold ToUnifiedAddress at h
    dsimp only at h
    rw [if_pos htrim] at h
    exact Option.noConfusion h
  unfold Network.Dial
  dsimp only
  rw [if_neg hne, h]
  split
  · rename_i heq
    exact absurd heq (by simp)
  · rename_i addr heq
    have haddr : addr = n.Address := by injection heq with h2; exact h2.symm
    subst haddr
    rw [if_pos rfl]

/-- A concrete resolver environment for witnesses: `127.0.0.1:3000` parses to
itself with no scheme, `127.0.0.1` is an IP literal, DNS resolves nothing. -/
def dialEnvExample : NetEnv where
  parseAddress := fun s =>
    if s = "127.0.0.1:3000" then some ⟨"", "127.0.0.1", 3000⟩ else none
  isIPLiteral := fun h => h = "127.0.0.1"
  lookupHost := fun _ => []
  connectOk := fun _ => true

/-- A concrete node bound to `127.0.0.1:3000` with no peers. -/
def dialNodeExample : Network where
  Host := "127.0.0.1"
  Port := 3000
  Peers := []
  nextClient := 0

/-- Witness for C3: the concrete node dials its own address. -/
theorem C3_witness :
    ToUnifiedAddress dialEnvExample (trimSpace "127.0.0.1:3000") =
      some dialNodeExample.Address ∧
    Network.Dial dialEnvExample dialNodeExample "127.0.0.1:3000" =
      (Except.error DialError.SelfDial, dialNodeExample) :=
  ⟨by decide, C3_self_dial dialEnvExample dialNodeExample "127.0.0.1:3000" (by decide)⟩

/-! ## `network/client.go`: `PeerClient.handleMessage` -/

/-- `peer.ID` (address and public key). -/
structure PeerID where
  Address : String
  PublicKey : List Nat
deriving DecidableEq, Repr

/-- `protobuf.Message`: the wire envelope. `α` is the raw `Any` payload
type; the signature was already checked by `receiveMessage`. -/
structure ProtoMessage (α : Type) where
  Sender : PeerID
  Message : α
deriving DecidableEq, Repr

/-- External environment of the dispatch path: `ptypes.UnmarshalAny`
(`β` is the decoded body type), `reflect.TypeOf(…).String()`,
`Network.Processors.Load`, and the outcome of the reverse
`establishConnection` performed on the first envelope. -/
structure MsgEnv (α β : Type) where
  unmarshalAny : α → Option β
  typeNameOf : β → String
  hasProcessor : String → Bool
  connectOk : String → Bool

/-- The observable state `handleMessage` acts on: the client's bound ID,
the log of `Routes.Update` calls, and the log of handler invocations
(by message type name). -/
structure ClientState where
  Id : Option PeerID
  routeUpdates : List PeerID
  handled : List String
deriving DecidableEq, Repr

/-- The tail of `handleMessage` after the identity check: update the routing
table with the sender's ID, decode the inner body (`UnmarshalAny`), and — on
success only — invoke the processor registered for the body's type name, if
any. -/
def dispatchBody {α β : Type} (e : MsgEnv α β) (msg : ProtoMessage α) (id : PeerID)
    (st : ClientState) : ClientState :=
  let st := { st with routeUpdates := st.routeUpdates ++ [id] }
  match e.unmarshalAny msg.Message with
  | none => st
  | some body =>
      let name := e.typeNameOf body
      if e.hasProcessor name then { st with handled := st.handled ++ [name] } else st

/-- `PeerClient.handleMessage`: `recv` is the result of `receiveMessage`
(`none` = receive/verify failure, an early return). A first envelope binds
`Id` to the sender and reverse-dials it (a failed reverse dial returns
early, with `Id` already set); a later envelope with a different sender is
dropped. Otherwise the body is dispatched. -/
def handleMessage {α β : Type} (e : MsgEnv α β) (recv : Option (ProtoMessage α))
    (st : ClientState) : ClientState :=
  match recv with
  | none => st
  | some msg =>
      let id := msg.Sender
      match st.Id with
      | none =>
          let st := { st with Id := some id }
          if e.connectOk id.Address then dispatchBody e msg id st else st
      | some cid =>
          if cid = id then dispatchBody e msg id st else st

/-- C1: the first successfully received envelope binds `Id` to its sender
(whatever the reverse dial does), and any later envelope whose sender
differs from the bound `Id` leaves the state untouched: no routing-table
update with the differing sender, no handler invocation, no rebinding. -/
theorem C1_identity_binding {α β : Type} (e : MsgEnv α β) (msg : ProtoMessage α)
    (st : ClientState) :
    (st.Id = none → (handleMessage e (some msg) st).Id = some msg.Sender) ∧
    (∀ x, st.Id = some x → msg.Sender ≠ x → handleMessage e (some msg) st = st) := by
  constructor
  · intro h0
    unfold handleMessage
    rw [h0]
    dsimp only
    by_cases hc : e.connectOk msg.Sender.Address
    · rw [if_pos hc]
      unfold dispatchBody
      cases e.unmarshalAny msg.Message with
      | none => rfl
      | some body =>
          dsimp only
          by_cases hp : e.hasProcessor (e.typeNameOf body)
          · rw [if_pos hp]
          · rw [if_neg hp]
    · rw [if_neg hc]
  · intro x hx hne
    unfold handleMessage
    rw [hx]
    dsimp only
    rw [if_neg (fun he => hne he.symm)]

/-- A concrete dispatch environment for witnesses: bodies are `Nat`s that
decode to themselves when nonzero, every type has a processor, reverse
dials succeed. -/
def msgEnvExample : MsgEnv Nat Nat where
  unmarshalAny := fun a => if a = 0 then none else some a
  typeNameOf := fun _ => "T"
  hasProcessor := fun _ => true
  connectOk := fun _ => true

/-- Witness for C1 at concrete states: a fresh client binds to sender `X`,
and a client bound to `X` drops an envelope from `Y`. -/
theorem C1_witness :
    ((⟨none, [], []⟩ : ClientState).Id = none →
      (handleMessage msgEnvExample (some ⟨⟨"X", [1]⟩, 1⟩) ⟨none, [], []⟩).Id =
        some (⟨"X", [1]⟩ : PeerID)) ∧
    (∀ x, (⟨some ⟨"X", [1]⟩, [], []⟩ : ClientState).Id = some x →
      (⟨⟨"Y", [2]⟩, 1⟩ : ProtoMessage Nat).Sender ≠ x →
      handleMessage msgEnvExample (some ⟨⟨"Y", [2]⟩, 1⟩) ⟨some ⟨"X", [1]⟩, [], []⟩ =
        ⟨some ⟨"X", [1]⟩, [], []⟩) :=
  ⟨(C1_identity_binding msgEnvExample ⟨⟨"X", [1]⟩, 1⟩ ⟨none, [], []⟩).1,
   (C1_identity_binding msgEnvExample ⟨⟨"Y", [2]⟩, 1⟩ ⟨some ⟨"X", [1]⟩, [], []⟩).2⟩

/-- C6 counterexample: a matching-sender envelope whose body fails to decode
(`unmarshalAny = none`) still updates the routing table with the sender's
ID, refuting "updated only if the body decodes successfully". -/
theorem C6_counterexample :
    msgEnvExample.unmarshalAny
        ((⟨⟨"X", [1]⟩, 0⟩ : ProtoMessage Nat).Message) = none ∧
    (handleMessage msgEnvExample (some ⟨⟨"X", [1]⟩, 0⟩)
        ⟨some ⟨"X", [1]⟩, [], []⟩).routeUpdates = [⟨"X", [1]⟩] := by
  constructor
  · decide
  · rfl

/-- C6 (amended): once an envelope is accepted (first envelope whose reverse
dial succeeds, or matching sender), the routing table is updated with the
sender's ID regardless of whether the body decodes; an envelope whose body
fails to decode never invokes a handler. -/
theorem C6_route_update_decode {α β : Type} (e : MsgEnv α β) (msg : ProtoMessage α)
    (st : ClientState)
    (hacc : (st.Id = none ∧ e.connectOk msg.Sender.Address = true) ∨
      st.Id = some msg.Sender) :
    (handleMessage e (some msg) st).routeUpdates = st.routeUpdates ++ [msg.Sender] ∧
    (e.unmarshalAny msg.Message = none →
      (handleMessage e (some msg) st).handled = st.handled) := by
  have hdis : ∀ st', (dispatchBody e msg msg.Sender st').routeUpdates =
      st'.routeUpdates ++ [msg.Sender] := by
    intro st'
    unfold dispatchBody
    cases e.unmarshalAny msg.Message with
    | none => rfl
    | some body =>
        dsimp only
        by_cases hp : e.hasProcessor (e.typeNameOf body)
        · rw [if_pos hp]
        · rw [if_neg hp]
  have hdis2 : ∀ st', e.unmarshalAny msg.Message = none →
      (dispatchBody e msg msg.Sender st').handled = st'.handled := by
    intro st' hdec
    unfold dispatchBody
    rw [hdec]
  rcases hacc with ⟨h0, hc⟩ | hs
  · unfold handleMessage
    rw [h0]
    dsimp only
    rw [if_pos hc]
    exact ⟨hdis _, fun hdec => hdis2 _ hdec⟩
  · unfold handleMessage
    rw [hs]
    dsimp only
    rw [if_pos rfl]
    exact ⟨hdis _, fun hdec => hdis2 _ hdec⟩

/-- Witness for C6 (amended) at a concrete accepted envelope with a body
that does decode, and one that does not. -/
theorem C6_witness :
    ((⟨some ⟨"X", [1]⟩, [], []⟩ : ClientState).Id =
        some (⟨⟨"X", [1]⟩, 0⟩ : ProtoMessage Nat).Sender) ∧
    (handleMessage msgEnvExample (some ⟨⟨"X", [1]⟩, 0⟩)
        ⟨some ⟨"X", [1]⟩, [], []⟩).routeUpdates = [] ++ [⟨"X", [1]⟩] ∧
    (msgEnvExample.unmarshalAny ((⟨⟨"X", [1]⟩, 0⟩ : ProtoMessage Nat).Message) = none →
      (handleMessage msgEnvExample (some ⟨⟨"X", [1]⟩, 0⟩)
          ⟨some ⟨"X", [1]⟩, [], []⟩).handled = []) :=
  ⟨rfl, C6_route_update_decode msgEnvExample ⟨⟨"X", [1]⟩, 0⟩ ⟨some ⟨"X", [1]⟩, [], []⟩
    (Or.inr rfl)⟩

/-! ## `network/client.go`: `reestablishConnection` / `close` -/

/-- External environment of the reconnect path: the transport outcome of the
`n`-th `establishConnection` attempt (1-based), and the `n`-th
`Backoff.Duration()` after the `Reset`. -/
structure ReconnectEnv where
  establishOk : Nat → Bool
  backoffDuration : Nat → Nat

/-- The observable client/node state the reconnect path acts on: the bound
ID, the session (`none` = nil reference, `some b` = a session that is open
iff `b`), the routing-table contents, the `Network.Peers` map, the log of
`time.Sleep` durations, and the number of `establishConnection`
invocations. -/
structure RClientState where
  Id : Option PeerID
  SessionOpen : Option Bool
  routes : List PeerID
  peers : List (String × Nat)
  sleeps : List Nat
  establishCalls : Nat
deriving DecidableEq, Repr

/-- `PeerClient.establishConnection`: errors if a session reference exists;
otherwise dials the transport and opens a mux client session (outcome `ok`),
storing the session on success. -/
def establishConnection (ok : Bool) (st0 : RClientState) : Bool × RClientState :=
  let st := { st0 with establishCalls := st0.establishCalls + 1 }
  if st.SessionOpen.isSome then (false, st)
  else if ok then (true, { st with SessionOpen := some true })
  else (false, st)

/-- `PeerClient.close`: if the ID is known and present in the routing table,
remove it. Nothing else: the session is not touched and the `peers` entry is
not deleted. -/
def closePeerClient (st : RClientState) : RClientState :=
  match st.Id with
  | none => st
  | some id => if id ∈ st.routes then { st with routes := st.routes.erase id } else st

/-- The retry loop of `reestablishConnection`: `attempt` attempts have been
made so far and `remaining = 5 - attempt` may still be made (the source
checks `attempt >= maxAttempts` with `maxAttempts = 5`; the fuel renders
that bounded loop structurally). Each failed attempt sleeps
`Backoff.Duration()` before the next check. -/
def reconnectLoop (env : ReconnectEnv) (address : String) :
    Nat → Nat → RClientState → Bool × RClientState
  | _, 0, st => (false, closePeerClient st)
  | attempt, remaining + 1, st =>
      let a := attempt + 1
      let r := establishConnection (env.establishOk a) st
      if r.1 then (true, r.2)
      else reconnectLoop env address a remaining
        { r.2 with sleeps := r.2.sleeps ++ [env.backoffDuration a] }

/-- `PeerClient.reestablishConnection`: close any open session (the close
itself always succeeds in the model, so the close-then-drop of the reference
collapses to a nil session), reset the backoff, and retry
`establishConnection(Id.Address)` up to 5 times; `none` models the nil
dereference of `c.Id` the Go code would perform on a client with no bound
identity. The `Bool` is `false` when the attempt budget is exhausted (the
`errors.New("unable to reestablish connection")` return, after `close()`). -/
def reestablishConnection (env : ReconnectEnv) (st0 : RClientState) :
    Option (Bool × RClientState) :=
  let st := { st0 with SessionOpen := none }
  match st.Id with
  | none => none
  | some id => some (reconnectLoop env id.Address 0 5 st)

/-- All-failing reconnect environment with unit backoff, for witnesses. -/
def reconnectEnvExample : ReconnectEnv where
  establishOk := fun _ => false
  backoffDuration := fun _ => 1

/-- A client bound to peer `X`, with an open session, `X` in the routing
table, and its entry present in the `peers` map. -/
def reconnectStateExample : RClientState where
  Id := some ⟨"X", [1]⟩
  SessionOpen := some true
  routes := [⟨"X", [1]⟩]
  peers := [("127.0.0.1:4000", 0)]
  sleeps := []
  establishCalls := 0

/-- C4 counterexample: after the five attempts all fail, the call returns
the `Unreachable` error (`false`) and `close()` has removed `X` from the
routing table — but the client's entry is still present in `peers`,
refuting "its entry is removed from peers". -/
theorem C4_counterexample :
    (reestablishConnection reconnectEnvExample reconnectStateExample).map
        (fun r => (r.1, r.2.routes, r.2.peers)) =
      some (false, [], [("127.0.0.1:4000", 0)]) := by
  decide

/-- C4 (amended): with a bound ID and five failing attempts,
`reestablishConnection` calls `establishConnection` exactly 5 times, sleeps
a backoff duration after each failed attempt, returns the `Unreachable`
error, removes the ID from the routing table (a no-op when absent), leaves
the session reference nil — and does NOT remove the client's entry from
`peers`. -/
theorem C4_reconnect_exhaustion (env : ReconnectEnv) (st : RClientState) (id : PeerID)
    (hid : st.Id = some id)
    (hfail : ∀ n, 1 ≤ n → n ≤ 5 → env.establishOk n = false) :
    ∃ st', reestablishConnection env st = some (false, st') ∧
      st'.establishCalls = st.establishCalls + 5 ∧
      st'.sleeps = st.sleeps ++ [env.backoffDuration 1, env.backoffDuration 2,
        env.backoffDuration 3, env.backoffDuration 4, env.backoffDuration 5] ∧
      st'.routes = st.routes.erase id ∧
      st'.peers = st.peers ∧
      st'.SessionOpen = none ∧
      st'.Id = some id := by
  have e1 : env.establishOk 1 = false := hfail 1 (by omega) (by omega)
  have e2 : env.establishOk 2 = false := hfail 2 (by omega) (by omega)
  have e3 : env.establishOk 3 = false := hfail 3 (by omega) (by omega)
  have e4 : env.establishOk 4 = false := hfail 4 (by omega) (by omega)
  have e5 : env.establishOk 5 = false := hfail 5 (by omega) (by omega)
  by_cases hmem : id ∈ st.routes
  · refine ⟨RClientState.mk st.Id none (st.routes.erase id) st.peers
      (st.sleeps ++ [env.backoffDuration 1, env.backoffDuration 2,
        env.backoffDuration 3, env.backoffDuration 4, env.backoffDuration 5])
      (st.establishCalls + 5), ?_, rfl, rfl, rfl, rfl, rfl, hid⟩
    simp only [reestablishConnection, hid, reconnectLoop, establishConnection,
      closePeerClient, Option.isSome_none, Bool.false_eq_true, if_false,
      e1, e2, e3, e4, e5, if_pos hmem]
    simp [List.append_assoc]
  · refine ⟨RClientState.mk st.Id none st.routes st.peers
      (st.sleeps ++ [env.backoffDuration 1, env.backoffDuration 2,
        env.backoffDuration 3, env.backoffDuration 4, env.backoffDuration 5])
      (st.establishCalls + 5), ?_,
      rfl, rfl, (List.erase_of_not_mem hmem).symm, rfl, rfl, hid⟩
    simp only [reestablishConnection, hid, reconnectLoop, establishConnection,
      closePeerClient, Option.isSome_none, Bool.false_eq_true, if_false,
      e1, e2, e3, e4, e5, if_neg hmem]
    simp [List.append_assoc]

/-- Witness for C4 (amended) at the concrete all-failing environment. -/
theorem C4_witness :
    reconnectStateExample.Id = some ⟨"X", [1]⟩ ∧
    (∀ n, 1 ≤ n → n ≤ 5 → reconnectEnvExample.establishOk n = false) ∧
    ∃ st', reestablishConnection reconnectEnvExample reconnectStateExample =
        some (false, st') ∧
      st'.establishCalls = reconnectStateExample.establishCalls + 5 ∧
      st'.sleeps = reconnectStateExample.sleeps ++ [reconnectEnvExample.backoffDuration 1,
        reconnectEnvExample.backoffDuration 2, reconnectEnvExample.backoffDuration 3,
        reconnectEnvExample.backoffDuration 4, reconnectEnvExample.backoffDuration 5] ∧
      st'.routes = reconnectStateExample.routes.erase ⟨"X", [1]⟩ ∧
      st'.peers = reconnectStateExample.peers ∧
      st'.SessionOpen = none ∧
      st'.Id = some ⟨"X", [1]⟩ :=
  ⟨rfl, fun _ _ _ => rfl,
   C4_reconnect_exhaustion reconnectEnvExample reconnectStateExample ⟨"X", [1]⟩ rfl
     (fun _ _ _ => rfl)⟩

/-! ## `network/network.go`: `BroadcastRandomly` -/

/-- The `Peers.Range` accumulation of `BroadcastRandomly`: append each
client's `Id.Address` and stop the traversal as soon as the accumulated
count exceeds `K*3` (`if len(addresses) > K*3 { return false }`). Each map
entry is `(key, client.Id.Address)`. `K` is a Go `int`, hence `Int`. -/
def scanAddresses (K : Int) : List (String × String) → List String → List String
  | [], acc => acc
  | (_, idAddr) :: rest, acc =>
      let acc2 := acc ++ [idAddr]
      if (acc2.length : Int) > K * 3 then acc2 else scanAddresses K rest acc2

/-- The tail of `BroadcastRandomly`: `if len(addresses) < K { K = len }` and
the slice expression `addresses[:K]`. A Go slice bound must satisfy
`0 ≤ K ≤ len`; `none` models the runtime panic outside that range. -/
def broadcastSlice (addresses : List String) (K0 : Int) : Option (List String) :=
  let K := if (addresses.length : Int) < K0 then (addresses.length : Int) else K0
  if 0 ≤ K ∧ K ≤ (addresses.length : Int) then some (addresses.take K.toNat)
  else none

/-- `Network.BroadcastRandomly`: accumulate addresses over the peer map,
shuffle them (the shuffle is a parameter standing for `rand.Shuffle`), cap
`K` at the accumulated length and slice — the result is the address list
handed to `BroadcastByAddresses`. -/
def BroadcastRandomly (shuffle : List String → List String)
    (peers : List (String × String)) (K : Int) : Option (List String) :=
  broadcastSlice (shuffle (scanAddresses K peers [])) K

theorem scanAddresses_length_le (K : Int) :
    ∀ (l : List (String × String)) (acc : List String),
      (scanAddresses K l acc).length ≤ acc.length + l.length := by
  intro l
  induction l with
  | nil => intro acc; simp [scanAddresses]
  | cons e rest ih =>
      obtain ⟨k, a⟩ := e
      intro acc
      simp only [scanAddresses]
      have hlen : (acc ++ [a]).length = acc.length + 1 := by simp
      by_cases h : ((acc ++ [a]).length : Int) > K * 3
      · rw [if_pos h, hlen]
        simp only [List.length_cons]
        omega
      · rw [if_neg h]
        have hih := ih (acc ++ [a])
        rw [hlen] at hih
        simp only [List.length_cons]
        omega

theorem scanAddresses_length_le_cap (K : Int) :
    ∀ (l : List (String × String)) (acc : List String),
      (acc.length : Int) ≤ 3 * K → ((scanAddresses K l acc).length : Int) ≤ 3 * K + 1 := by
  intro l
  induction l with
  | nil => intro acc hacc; simpa [scanAddresses] using by omega
  | cons e rest ih =>
      obtain ⟨k, a⟩ := e
      intro acc hacc
      simp only [scanAddresses]
      have hlen : (acc ++ [a]).length = acc.length + 1 := by simp
      by_cases h : ((acc ++ [a]).length : Int) > K * 3
      · rw [if_pos h, hlen]
        push_cast
        omega
      · rw [if_neg h]
        apply ih (acc ++ [a])
        omega

/-- C7 counterexample: with `K = 1` and five peers the `Range` accumulation
gathers `3K + 1 = 4` addresses, not `3K = 3`: the stopping test
`len(addresses) > K*3` only fires after the count exceeds `3K`. -/
theorem C7_counterexample :
    scanAddresses 1 [("a", "A"), ("b", "B"), ("c", "C"), ("d", "D"), ("e", "E")] [] =
      ["A", "B", "C", "D"] ∧
    ¬ ((scanAddresses 1 [("a", "A"), ("b", "B"), ("c", "C"), ("d", "D"), ("e", "E")]
        []).length ≤ 3 * 1) := by
  constructor
  · decide
  · decide

/-- C7 (amended): for `K ≥ 0` and a length-preserving shuffle,
`BroadcastRandomly` hands at most `min(K, |peers|)` distinct addresses to
`BroadcastByAddresses`, and the sampling scan stops accumulating once MORE
than `3K` addresses are gathered (so its length is at most `3K + 1`). -/
theorem C7_broadcast_randomly (shuffle : List String → List String)
    (peers : List (String × String)) (K : Int)
    (hsh : ∀ l, (shuffle l).length = l.length) (hK : 0 ≤ K) :
    (∃ l, BroadcastRandomly shuffle peers K = some l ∧
      l.dedup.length ≤ min K.toNat peers.length) ∧
    ((scanAddresses K peers []).length : Int) ≤ 3 * K + 1 := by
  constructor
  · have hlenS : (shuffle (scanAddresses K peers [])).length =
        (scanAddresses K peers []).length := hsh _
    have hlenA : (scanAddresses K peers []).length ≤ peers.length := by
      simpa using scanAddresses_length_le K peers []
    set S := shuffle (scanAddresses K peers []) with hS
    set K2 : Int := if (S.length : Int) < K then (S.length : Int) else K with hK2
    have hb : 0 ≤ K2 ∧ K2 ≤ (S.length : Int) := by
      rw [hK2]
      by_cases hc : (S.length : Int) < K
      · rw [if_pos hc]
        exact ⟨Int.natCast_nonneg _, le_refl _⟩
      · rw [if_neg hc]
        exact ⟨hK, by omega⟩
    have hKK : K2 ≤ K := by
      rw [hK2]
      by_cases hc : (S.length : Int) < K
      · rw [if_pos hc]; omega
      · rw [if_neg hc]
    refine ⟨S.take K2.toNat, ?_, ?_⟩
    · unfold BroadcastRandomly broadcastSlice
      rw [← hS]
      dsimp only
      rw [← hK2, if_pos hb]
    · have hdd : (S.take K2.toNat).dedup.length ≤ (S.take K2.toNat).length :=
        (List.dedup_sublist _).length_le
      have htake : (S.take K2.toNat).length = min K2.toNat S.length :=
        List.length_take _ _
      have h1 : K2.toNat ≤ K.toNat := Int.toNat_le_toNat hKK
      have h2 : K2.toNat ≤ S.length := by
        rw [Int.toNat_le]
        exact_mod_cast hb.2
      refine Nat.le_min.mpr ⟨?_, ?_⟩
      · omega
      · have : K2.toNat ≤ peers.length := le_trans h2 (hlenS ▸ hlenA)
        omega
  · exact scanAddresses_length_le_cap K peers [] (by simpa using by omega)

/-- Witness for C7 (amended) with the identity shuffle, five peers, `K = 1`. -/
theorem C7_witness :
    (∃ l, BroadcastRandomly (fun l => l)
        [("a", "A"), ("b", "B"), ("c", "C"), ("d", "D"), ("e", "E")] 1 = some l ∧
      l.dedup.length ≤
        min (Int.toNat 1) [("a", "A"), ("b", "B"), ("c", "C"), ("d", "D"),
          ("e", "E")].length) ∧
    ((scanAddresses 1 [("a", "A"), ("b", "B"), ("c", "C"), ("d", "D"),
      ("e", "E")] []).length : Int) ≤ 3 * 1 + 1 :=
  C7_broadcast_randomly (fun l => l)
    [("a", "A"), ("b", "B"), ("c", "C"), ("d", "D"), ("e", "E")] 1
    (fun _ => rfl) (by decide)

/-- C10: the implicit precondition `K ≥ 0`. For `K ≥ 0` the slice
`addresses[:K]` taken after capping `K` at `len(addresses)` is in bounds and
the call returns; for `K < 0` the cap `len(addresses) < K` can never fire
(lengths are non-negative) and the slice expression faults. -/
theorem C10_broadcast_randomly_negative_k (shuffle : List String → List String)
    (peers : List (String × String)) (K : Int) :
    (0 ≤ K → (BroadcastRandomly shuffle peers K).isSome) ∧
    (K < 0 →
      ¬ (((shuffle (scanAddresses K peers [])).length : Int) < K) ∧
      BroadcastRandomly shuffle peers K = none) := by
  constructor
  · intro hK
    set S := shuffle (scanAddresses K peers []) with hS
    set K2 : Int := if (S.length : Int) < K then (S.length : Int) else K with hK2
    have hb : 0 ≤ K2 ∧ K2 ≤ (S.length : Int) := by
      rw [hK2]
      by_cases hc : (S.length : Int) < K
      · rw [if_pos hc]
        exact ⟨Int.natCast_nonneg _, le_refl _⟩
      · rw [if_neg hc]
        exact ⟨hK, by omega⟩
    unfold BroadcastRandomly broadcastSlice
    rw [← hS]
    dsimp only
    rw [← hK2, if_pos hb]
    rfl
  · intro hK
    have hnc : ¬ (((shuffle (scanAddresses K peers [])).length : Int) < K) := by
      have := Int.natCast_nonneg (shuffle (scanAddresses K peers [])).length
      omega
    refine ⟨hnc, ?_⟩
    unfold BroadcastRandomly broadcastSlice
    dsimp only
    rw [if_neg hnc, if_neg]
    intro hcon
    omega

/-- Witness for C10 at `K = 1` (in bounds) and `K = -1` (cap never fires,
slice faults). -/
theorem C10_witness :
    (0 ≤ (1 : Int) →
      (BroadcastRandomly (fun l => l) [("a", "A")] 1).isSome) ∧
    ((-1 : Int) < 0 →
      ¬ ((((fun (l : List String) => l) (scanAddresses (-1) [("a", "A")] [])).length :
        Int) < -1) ∧
      BroadcastRandomly (fun l => l) [("a", "A")] (-1) = none) :=
  ⟨(C10_broadcast_randomly_negative_k (fun l => l) [("a", "A")] 1).1,
   (C10_broadcast_randomly_negative_k (fun l => l) [("a", "A")] (-1)).2⟩
